import Mathlib

/-!
Verification of the SourcePawn JIT compile driver (`src/vm/jit.cpp`) against its
natural-language specification.  The driver's data model and operations are
shallowly embedded: the per-compile state (`CState`) carries the latched error
field, the assembler trace, the used-label bookkeeping, the out-of-line path
registry, the backward-jump table and the cip map, exactly as the fields of
`CompilerBase`.  Collaborators whose bodies are not part of the excerpt
(p-code reader, per-opcode visitors, prologue and generic error handlers) are
modelled abstractly, as documented on each definition.
-/

set_option maxRecDepth 10000

namespace SpJit

/-- Error code constants of the SourcePawn ABI used by `jit.cpp`.
Only their distinctness (and `SP_ERROR_NONE = 0`) matters here. -/
def SP_ERROR_NONE : Nat := 0

def SP_ERROR_HEAPLOW : Nat := 3

def SP_ERROR_INVALID_ADDRESS : Nat := 5

def SP_ERROR_STACKLOW : Nat := 8

def SP_ERROR_MEMACCESS : Nat := 11

def SP_ERROR_STACKMIN : Nat := 12

def SP_ERROR_HEAPMIN : Nat := 13

def SP_ERROR_DIVIDE_BY_ZERO : Nat := 14

def SP_ERROR_ARRAY_BOUNDS : Nat := 15

def SP_ERROR_INVALID_NATIVE : Nat := 21

def SP_ERROR_OUT_OF_MEMORY : Nat := 28

def SP_ERROR_INTEGER_OVERFLOW : Nat := 29

def SP_ERROR_TIMEOUT : Nat := 30

/-! ## Entry-frame discovery (`CompilerBase::find_entry_fp`)

The JIT frame iterator walks native frames from the deepest outward; each
frame exposes a `frame_type` and a `prev_fp` field (`stack-frames.h`).
Frame pointers are modelled as `Nat`, with `0` for the null pointer. -/

/-- Frame types seen by the JIT frame iterator. -/
inductive JitFrameType
  | entry
  | scripted
  | exitFrame
  deriving Repr, DecidableEq

/-- The per-frame layout observed by `find_entry_fp`: a frame type and the saved
previous frame pointer. -/
structure FrameLayout where
  frame_type : JitFrameType
  prev_fp : Nat
  deriving Repr, DecidableEq

/-- The loop body of `CompilerBase::find_entry_fp`: starting from
`fp = nullptr`, walk the frames; on reaching a frame of type `Entry` stop
(without reading it); otherwise remember that frame's `prev_fp` and continue. -/
def find_entry_fp_loop (fp : Nat) : List FrameLayout → Nat
  | [] => fp
  | f :: rest =>
    if f.frame_type = JitFrameType.entry then fp
    else find_entry_fp_loop f.prev_fp rest

/-- The walk of `CompilerBase::find_entry_fp` (jit.cpp lines 262-276), with the frame
iterator's walk materialised as the list of frames it would yield, deepest
first. -/
def find_entry_fp (frames : List FrameLayout) : Nat :=
  find_entry_fp_loop 0 frames

/-! ## The compile pipeline (`CompilerBase::emit` and its collaborators)

The assembler buffer is modelled as a trace of emitted items plus a running
program counter (`masm.pc()`).  Per-opcode visitors (the target backend,
referenced but not part of the excerpt) are modelled as a list of primitive
emission actions attached to each decoded instruction; each action mirrors
one of the driver-facing operations the backend performs (emit raw code,
reference a shared error label, record a backward jump, register an OOL path,
append a cip-map entry, latch a compile error).  cips are cell indices into
the code segment; `cbase` is the segment base, so the jump-map index of a cip
is `cip - cbase`, as in `jump_map_[reader.cip() - codeseg]`. -/

/-- Model constants for instruction byte lengths.  The concrete values are
irrelevant to every property proved below; only that emission advances the
assembler pc. -/
def CALL_LEN : Nat := 5

def ALIGN_LEN : Nat := 1

def PROLOGUE_LEN : Nat := 16

def THROWPATH_LEN : Nat := 10

def HANDLERS_LEN : Nat := 32

/-- Items appended to the assembler buffer.  Events emitted on behalf of a
particular p-code instruction carry that instruction's cip (the first
argument), mirroring the `op_cip_` bookkeeping of the driver. -/
inductive AsmEvent
  | prologue
  | bindJump (idx : Nat)
  | code (cip : Nat) (len : Nat)
  | callThrowCode (cip : Nat) (err : Nat)
  | bindOol (idx : Nat)
  | alignStack (cip : Nat)
  | callThrow (cip : Nat) (err : Nat)
  | callReportError (cip : Nat)
  | callThrowTimeout
  | bindThrow (err : Nat)
  | throwPath (err : Nat)
  | errorHandlers
  deriving Repr, DecidableEq

/-- A backward-jump record (`struct BackwardJump`): the native pc of the
branch, the source cip, and the native pc of its preemption thunk (filled in
during finalization). -/
structure BackwardJump where
  pc : Nat
  cip : Nat
  timeout_offset : Nat
  deriving Repr, DecidableEq

instance : Inhabited BackwardJump := ⟨⟨0, 0, 0⟩⟩

/-- A cip-map entry: native pc offset paired with the p-code cip. -/
structure CipMapEntry where
  pcoffs : Nat
  cipoffs : Nat
  deriving Repr, DecidableEq

/-- A loop edge: native pc of a backward branch and the signed 32-bit
displacement to its preemption thunk. -/
structure LoopEdge where
  offset : Nat
  disp32 : Int
  deriving Repr, DecidableEq

/-- The two out-of-line path variants of the excerpt: `ErrorPath` (carrying
an error code and the originating cip) and `OutOfBoundsErrorPath` (carrying
the originating cip). -/
inductive OolPath
  | errorPath (err : Nat) (cip : Nat)
  | boundsPath (cip : Nat)
  deriving Repr, DecidableEq

/-- The per-compile state of `CompilerBase`: the latched error field, the
assembler (pc plus trace), the set of referenced (`used()`) shared error
labels, the OOL registry, the backward-jump table, the cip map and `op_cip_`. -/
structure CState where
  error_ : Nat
  pcVal : Nat
  trace : List AsmEvent
  throwUsed : List Nat
  ool_paths_ : List OolPath
  backward_jumps_ : List BackwardJump
  cip_map_ : List CipMapEntry
  op_cip_ : Nat
  deriving Repr, DecidableEq

/-- The state at `CompilerBase` construction: no error, empty buffer and
empty bookkeeping. -/
def initState : CState :=
  { error_ := SP_ERROR_NONE, pcVal := 0, trace := [], throwUsed := [],
    ool_paths_ := [], backward_jumps_ := [], cip_map_ := [], op_cip_ := 0 }

/-- Append one assembler item of byte length `len`. -/
def emitEv (e : AsmEvent) (len : Nat) (s : CState) : CState :=
  { s with trace := s.trace ++ [e], pcVal := s.pcVal + len }

/-- Record a reference to the shared error label `throw_error_code_[err]`
(the label's `used()` bit). -/
def markThrowUsed (err : Nat) (s : CState) : CState :=
  { s with throwUsed := s.throwUsed ++ [err] }

/-- Latch the error code (`CompilerBase::reportError`). -/
def reportError (err : Nat) (s : CState) : CState :=
  { s with error_ := err }

/-- Append, as `CompilerBase::emitCipMapping`, a (current native pc, cip)
entry to the cip map. -/
def emitCipMapping (cip : Nat) (s : CState) : CState :=
  { s with cip_map_ := s.cip_map_ ++ [⟨s.pcVal, cip⟩] }

/-- Primitive emission actions a per-opcode visitor can perform against the
driver.  The visitors themselves are target-backend code outside the excerpt;
this is their driver-facing interface. -/
inductive VisitStep
  | emitCode (len : Nat)
  | inlineErrorCall (err : Nat)
  | recordBackwardJump (len : Nat)
  | registerOolError (err : Nat)
  | registerOolBounds
  | addCipEntry
  | reportErrorStep (err : Nat)
  deriving Repr, DecidableEq

/-- Opcodes as far as the driver's decode loop distinguishes them:
`OP_PROC`, `OP_ENDPROC`, anything else. -/
inductive Opcode
  | procOp
  | endprocOp
  | otherOp (k : Nat)
  deriving Repr, DecidableEq

/-- One decoded instruction as the p-code reader presents it: its opcode,
its size in cells, whether `visitNext()` succeeds on it, and the emission
actions its visitor performs. -/
structure Instr where
  op : Opcode
  cellLen : Nat
  ok : Bool
  steps : List VisitStep
  deriving Repr, DecidableEq

/-- Apply one visitor action to the compile state.  `inlineErrorCall`
follows the error-raising sequence of §4.4 (align the stack, call the shared
error label — which references it — then record a cip-map entry);
`recordBackwardJump` appends a `BackwardJump` at the branch pc and emits the
branch; the two register actions append to the OOL registry;
`reportErrorStep` latches a compile error (e.g. an assembler overflow). -/
def applyStep (s : CState) : VisitStep → CState
  | .emitCode len => emitEv (.code s.op_cip_ len) len s
  | .inlineErrorCall err =>
    let s1 := emitEv (.alignStack s.op_cip_) ALIGN_LEN s
    let s2 := markThrowUsed err s1
    let s3 := emitEv (.callThrowCode s2.op_cip_ err) CALL_LEN s2
    emitCipMapping s3.op_cip_ s3
  | .recordBackwardJump len =>
    let s1 := { s with backward_jumps_ := s.backward_jumps_ ++ [⟨s.pcVal, s.op_cip_, 0⟩] }
    emitEv (.code s1.op_cip_ len) len s1
  | .registerOolError err =>
    { s with ool_paths_ := s.ool_paths_ ++ [.errorPath err s.op_cip_] }
  | .registerOolBounds =>
    { s with ool_paths_ := s.ool_paths_ ++ [.boundsPath s.op_cip_] }
  | .addCipEntry => emitCipMapping s.op_cip_ s
  | .reportErrorStep err => reportError err s

/-- Run a visitor's action list in order. -/
def visitSteps : List VisitStep → CState → CState
  | [], s => s
  | st :: rest, s => visitSteps rest (applyStep s st)

/-- Whether the peeked opcode signals a function boundary
(`OP_PROC` or `OP_ENDPROC`). -/
def isBoundary (i : Instr) : Bool :=
  i.op == Opcode.procOp || i.op == Opcode.endprocOp

/-- One iteration of the decode loop body (jit.cpp lines 103-110): bind the
jump-map label for the current cip, record `op_cip_`, then dispatch to the
visitor. -/
def stepInstr (cbase cip : Nat) (i : Instr) (s : CState) : CState :=
  let s1 := emitEv (.bindJump (cip - cbase)) 0 s
  let s2 := { s1 with op_cip_ := cip }
  visitSteps i.steps s2

/-- How the decode loop ended: ran to a boundary / end of code, or aborted
because the visitor failed or the error field became nonzero. -/
inductive LoopOutcome
  | completed
  | aborted
  deriving Repr, DecidableEq

/-- The main decode loop of `CompilerBase::emit` (lines 93-112): while input
remains, stop before emitting on a function boundary; otherwise bind the
jump-map label, visit the instruction, and abort if the visitor returned
false or the error field is nonzero. -/
def mainLoop (cbase : Nat) : Nat → List Instr → CState → CState × LoopOutcome
  | _, [], s => (s, .completed)
  | cip, i :: rest, s =>
    if isBoundary i then (s, .completed)
    else
      let s1 := stepInstr cbase cip i s
      if i.ok = false ∨ s1.error_ ≠ 0 then (s1, .aborted)
      else mainLoop cbase (cip + i.cellLen) rest s1

/-- The body of `CompilerBase::emitErrorPath` (lines 170-201): align the stack; if the
path has no static error code, call the generic report-error label, else call
(and thereby reference) the shared label for that code; then record a
cip-map entry for the originating instruction. -/
def emitErrorPath (err cip : Nat) (s : CState) : CState :=
  let s1 := emitEv (.alignStack cip) ALIGN_LEN s
  let s2 :=
    if err = 0 then emitEv (.callReportError cip) CALL_LEN s1
    else emitEv (.callThrow cip err) CALL_LEN (markThrowUsed err s1)
  emitCipMapping cip s2

/-- Modelled from the spec: `emitOutOfBoundsErrorPath` is declared in the
headers but its body is not in the excerpt.  Per §8 (bounds-checked array
load), the out-of-bounds stub calls — and thereby references — the
array-bounds throw path, and records a cip-map entry at its site. -/
def emitOutOfBoundsErrorPath (cip : Nat) (s : CState) : CState :=
  let s1 := emitEv (.alignStack cip) ALIGN_LEN s
  let s2 := emitEv (.callThrow cip SP_ERROR_ARRAY_BOUNDS) CALL_LEN
    (markThrowUsed SP_ERROR_ARRAY_BOUNDS s1)
  emitCipMapping cip s2

/-- The virtual `OutOfLinePath::emit` dispatch: `ErrorPath::emit` calls
`emitErrorPath` and returns true (lines 294-299); `OutOfBoundsErrorPath::emit`
calls `emitOutOfBoundsErrorPath` and returns true (lines 301-306). -/
def pathEmit (p : OolPath) (s : CState) : CState × Bool :=
  match p with
  | .errorPath err cip => (emitErrorPath err cip s, true)
  | .boundsPath cip => (emitOutOfBoundsErrorPath cip s, true)

/-- The OOL emission loop of `emit` (lines 114-119): bind each path's label,
emit its body, and abort if the body emission reports failure. -/
def oolLoop : Nat → List OolPath → CState → CState × Bool
  | _, [], s => (s, true)
  | idx, p :: rest, s =>
    let s1 := emitEv (.bindOol idx) 0 s
    let r := pathEmit p s1
    if r.2 = false then (r.1, false)
    else oolLoop (idx + 1) rest r.1

/-- The backward-jump thunk loop of `emit` (lines 123-128): for each record,
set its `timeout_offset` to the current assembler pc, emit a call to the
shared timeout path, and append a cip-map entry.  Returns the updated
records together with the state. -/
def thunkLoop : List BackwardJump → CState → List BackwardJump × CState
  | [], s => ([], s)
  | j :: rest, s =>
    let j' : BackwardJump := { j with timeout_offset := s.pcVal }
    let s1 := emitEv .callThrowTimeout CALL_LEN s
    let s2 := emitCipMapping j.cip s1
    let r := thunkLoop rest s2
    (j' :: r.1, r.2)

/-- Modelled from the spec: `emitThrowPath(err)`'s body is backend code not
in the excerpt; per §4.4 it materialises the hardcoded error code and jumps
to the generic report-error routine.  Modelled as one emitted block. -/
def emitThrowPath (err : Nat) (s : CState) : CState :=
  emitEv (.throwPath err) THROWPATH_LEN s

/-- The check of `CompilerBase::emitThrowPathIfNeeded` (lines 203-213): if the shared
label for `err` was never referenced, do nothing; otherwise bind it and emit
its throw path. -/
def emitThrowPathIfNeeded (err : Nat) (s : CState) : CState :=
  if s.throwUsed.contains err then emitThrowPath err (emitEv (.bindThrow err) 0 s)
  else s

/-- The fixed list of error codes whose shared paths `emit` synthesises, in
source order (lines 131-139). -/
def errorList : List Nat :=
  [SP_ERROR_DIVIDE_BY_ZERO, SP_ERROR_STACKLOW, SP_ERROR_STACKMIN,
   SP_ERROR_ARRAY_BOUNDS, SP_ERROR_MEMACCESS, SP_ERROR_HEAPLOW,
   SP_ERROR_HEAPMIN, SP_ERROR_INTEGER_OVERFLOW, SP_ERROR_INVALID_NATIVE]

/-- Modelled from the spec: `emitErrorHandlers` (generic report-error tail
and return-path stubs) is backend code not in the excerpt; it only appends
code and touches none of the driver's bookkeeping. -/
def emitErrorHandlers (s : CState) : CState :=
  emitEv .errorHandlers HANDLERS_LEN s

/-- Modelled from the spec: `emitPrologue` (stack frame setup, register
save) is backend code not in the excerpt; it only appends code. -/
def emitPrologue (s : CState) : CState :=
  emitEv .prologue PROLOGUE_LEN s

/-- Reinterpret a machine word as a signed 32-bit value (the `int32_t(x)`
casts on line 159). -/
def toInt32 (n : Nat) : Int :=
  if n % 2 ^ 32 < 2 ^ 31 then ((n % 2 ^ 32 : Nat) : Int)
  else ((n % 2 ^ 32 : Nat) : Int) - 2 ^ 32

/-- The `LoopEdge` construction of `emit` (lines 154-160):
`edges[i].offset = jump.pc` and
`edges[i].disp32 = int32_t(jump.timeout_offset) - int32_t(jump.pc)`. -/
def buildEdges (js : List BackwardJump) : List LoopEdge :=
  js.map fun j => ⟨j.pc, toInt32 j.timeout_offset - toInt32 j.pc⟩

/-- A compiled function: entry address of the published chunk, originating
p-code offset, loop-edge array and cip map. -/
structure CompiledFunction where
  entry : Nat
  pcode_start : Nat
  edges : List LoopEdge
  cipmap : List CipMapEntry
  deriving Repr, DecidableEq

/-- The phases of `CompilerBase::emit` after `reader.begin()`: prologue,
decode loop, OOL paths, backward-jump thunks, shared throw paths, generic
error handlers, the final error check, linking (`linkAddr` is the address
`LinkCode` would return, `0` meaning allocation failure), and construction
of the `LoopEdge` and cip-map arrays. -/
def emitCore (cbase linkAddr pcodeStart loopStart : Nat) (body : List Instr) :
    CState × Option CompiledFunction :=
  let s0 := emitPrologue initState
  let r1 := mainLoop cbase loopStart body s0
  match r1.2 with
  | .aborted => (r1.1, none)
  | .completed =>
    let r2 := oolLoop 0 r1.1.ool_paths_ r1.1
    if r2.2 = false then (r2.1, none)
    else
      let r3 := thunkLoop r2.1.backward_jumps_ r2.1
      let s3 := { r3.2 with backward_jumps_ := r3.1 }
      let s4 := errorList.foldl (fun s e => emitThrowPathIfNeeded e s) s3
      let s5 := emitErrorHandlers s4
      if s5.error_ ≠ 0 then (s5, none)
      else if linkAddr = 0 then (reportError SP_ERROR_OUT_OF_MEMORY s5, none)
      else (s5, some ⟨linkAddr, pcodeStart, buildEdges s5.backward_jumps_, s5.cip_map_⟩)

/-- The driver `CompilerBase::emit`, from the function's start.  Modelled from the
spec: `reader.begin()` (pcode-reader.h, not in the excerpt) positions the
reader past the function's initial `PROC` opcode, so the decode loop starts
at the instruction after it.  An empty stream is modelled as a failed
compile. -/
def emit (cbase linkAddr pcodeStart : Nat) : List Instr → CState × Option CompiledFunction
  | [] => (initState, none)
  | first :: body => emitCore cbase linkAddr pcodeStart (pcodeStart + first.cellLen) body

/-- A `MethodInfo` record: p-code offset, the result `Validate()` would
return, and the optional compiled-function reference (`jit()`). -/
structure MethodInfo where
  pcode_offset : Nat
  validateResult : Nat
  jitFun : Option CompiledFunction
  deriving Repr, DecidableEq

/-- The entry point `CompilerBase::Compile` (lines 59-72): run `emit`; on failure surface
`cc.error()` to the caller's out-parameter and leave the method untouched;
on success set the method's compiled-function reference.  The second
component is the value stored through the `err` out-parameter (on success it
is not written; the caller's prior value, `SP_ERROR_NONE` on the
`CompileFromThunk` path, is returned unchanged). -/
def Compile (cbase linkAddr : Nat) (prog : List Instr) (m : MethodInfo) :
    Option CompiledFunction × Nat × MethodInfo :=
  let r := emit cbase linkAddr m.pcode_offset prog
  match r.2 with
  | none => (none, r.1.error_, m)
  | some fn => (some fn, SP_ERROR_NONE, { m with jitFun := some fn })

/-- Observable side effects of `CompileFromThunk`: the write of the entry
address through `addrp`, and the `PatchCallThunk` rewrite of the call site,
in program order. -/
inductive ThunkAction
  | writeAddr (a : Nat)
  | patch (a : Nat)
  deriving Repr, DecidableEq

/-- The environment a `CompileFromThunk` call runs against: the watchdog's
`HandleInterrupt()` result, the `AcquireMethod` result, and the inputs the
compile driver would consume for this method. -/
structure ThunkWorld where
  handleInterrupt : Bool
  acquireMethod : Option MethodInfo
  cbase : Nat
  linkAddr : Nat
  prog : List Instr
  deriving Repr, DecidableEq

/-- The outcome of a `CompileFromThunk` call: returned status, the side
effects performed (in order), the method state afterwards, and whether the
compile driver was invoked. -/
structure ThunkOutcome where
  status : Nat
  actions : List ThunkAction
  methodAfter : Option MethodInfo
  compiled : Bool
  deriving Repr, DecidableEq

/-- The thunk patcher `CompilerBase::CompileFromThunk` (lines 222-258): process watchdog
preemption (refusing to compile on an active preemption), acquire and
validate the method, compile if it has no compiled function yet, then store
the entry address through `addrp` and patch the call site. -/
def CompileFromThunk (w : ThunkWorld) : ThunkOutcome :=
  if w.handleInterrupt = false then
    { status := SP_ERROR_TIMEOUT, actions := [], methodAfter := w.acquireMethod,
      compiled := false }
  else
    match w.acquireMethod with
    | none =>
      { status := SP_ERROR_INVALID_ADDRESS, actions := [], methodAfter := none,
        compiled := false }
    | some m =>
      if m.validateResult ≠ SP_ERROR_NONE then
        { status := m.validateResult, actions := [], methodAfter := some m,
          compiled := false }
      else
        match m.jitFun with
        | some fn =>
          { status := SP_ERROR_NONE,
            actions := [.writeAddr fn.entry, .patch fn.entry],
            methodAfter := some m, compiled := false }
        | none =>
          let r := Compile w.cbase w.linkAddr w.prog m
          match r.1 with
          | none =>
            { status := r.2.1, actions := [], methodAfter := some r.2.2,
              compiled := true }
          | some fn =>
            { status := SP_ERROR_NONE,
              actions := [.writeAddr fn.entry, .patch fn.entry],
              methodAfter := some r.2.2, compiled := true }

/-! ## Derived descriptions of the pipeline's behaviour

Pure functions of the program computing what each phase appends, used to
state and prove the claims. -/

/-- The cips the decode loop visits, starting at `start`: one per
instruction of the longest boundary-free prefix. -/
def visitedCips (start : Nat) : List Instr → List Nat
  | [] => []
  | i :: rest =>
    if isBoundary i then [] else start :: visitedCips (start + i.cellLen) rest

/-- The instructions the decode loop visits: the longest boundary-free
prefix. -/
def visitedInstrs : List Instr → List Instr
  | [] => []
  | i :: rest => if isBoundary i then [] else i :: visitedInstrs rest

/-- Assembler items one visitor action appends, when executed for the
instruction at cip `c`. -/
def stepEvents (c : Nat) : VisitStep → List AsmEvent
  | .emitCode len => [.code c len]
  | .inlineErrorCall err => [.alignStack c, .callThrowCode c err]
  | .recordBackwardJump len => [.code c len]
  | .registerOolError _ => []
  | .registerOolBounds => []
  | .addCipEntry => []
  | .reportErrorStep _ => []

/-- Assembler items a whole visitor run appends. -/
def visitEvents (c : Nat) : List VisitStep → List AsmEvent
  | [] => []
  | st :: rest => stepEvents c st ++ visitEvents c rest

/-- Assembler items the decode loop appends on a run that never aborts. -/
def loopEvents (cbase : Nat) : Nat → List Instr → List AsmEvent
  | _, [] => []
  | cip, i :: rest =>
    if isBoundary i then []
    else .bindJump (cip - cbase) ::
      (visitEvents cip i.steps ++ loopEvents cbase (cip + i.cellLen) rest)

/-- The cip an assembler item was emitted on behalf of, when any. -/
def tagOf : AsmEvent → Option Nat
  | .code c _ => some c
  | .callThrowCode c _ => some c
  | .alignStack c => some c
  | .callThrow c _ => some c
  | .callReportError c => some c
  | _ => none

/-- Shared error labels one visitor action references. -/
def stepUses : VisitStep → List Nat
  | .inlineErrorCall err => [err]
  | _ => []

/-- Shared error labels a whole visitor run references. -/
def visitUses : List VisitStep → List Nat
  | [] => []
  | st :: rest => stepUses st ++ visitUses rest

/-- Shared error labels the decode loop references on a run that never
aborts. -/
def loopUses : List Instr → List Nat
  | [] => []
  | i :: rest => if isBoundary i then [] else visitUses i.steps ++ loopUses rest

/-- OOL paths one visitor action registers, for the instruction at cip `c`. -/
def stepOolRegs (c : Nat) : VisitStep → List OolPath
  | .registerOolError err => [.errorPath err c]
  | .registerOolBounds => [.boundsPath c]
  | _ => []

/-- OOL paths a whole visitor run registers. -/
def visitOolRegs (c : Nat) : List VisitStep → List OolPath
  | [] => []
  | st :: rest => stepOolRegs c st ++ visitOolRegs c rest

/-- OOL paths the decode loop registers on a run that never aborts. -/
def loopOolRegs : Nat → List Instr → List OolPath
  | _, [] => []
  | cip, i :: rest =>
    if isBoundary i then []
    else visitOolRegs cip i.steps ++ loopOolRegs (cip + i.cellLen) rest

/-- Shared error labels one OOL path body references when emitted. -/
def pathUses : OolPath → List Nat
  | .errorPath err _ => if err = 0 then [] else [err]
  | .boundsPath _ => [SP_ERROR_ARRAY_BOUNDS]

/-- Shared error labels a list of OOL path bodies references. -/
def pathsUses : List OolPath → List Nat
  | [] => []
  | p :: rest => pathUses p ++ pathsUses rest

/-- Assembler items the shared-throw-path phase appends, given the
referenced-label set `used` at its start. -/
def throwEvents (used : List Nat) : List Nat → List AsmEvent
  | [] => []
  | e :: rest =>
    (if used.contains e then [.bindThrow e, .throwPath e] else []) ++ throwEvents used rest

/-- Whether one visitor action references the shared error label for `err`:
directly from an in-line call, or through the error-path /
out-of-bounds-path OOL stub it registers (whose body calls the label). -/
def stepRefB (err : Nat) : VisitStep → Bool
  | .inlineErrorCall e => e == err
  | .registerOolError e => e == err
  | .registerOolBounds => err == SP_ERROR_ARRAY_BOUNDS
  | _ => false

/-- Whether an instruction's emission references the shared error label for
`err`. -/
def referencesThrow (err : Nat) (i : Instr) : Bool :=
  i.steps.any (stepRefB err)

/-- The error-latching discipline of the (out-of-excerpt) visitors, as the
spec states it for compile-time errors (§7): whenever the compile of the
world's method fails, a nonzero error code has been latched. -/
def compileLatchesB (w : ThunkWorld) : Bool :=
  match w.acquireMethod with
  | none => true
  | some m =>
    match (emit w.cbase w.linkAddr m.pcode_offset w.prog).2 with
    | some _ => true
    | none => !((emit w.cbase w.linkAddr m.pcode_offset w.prog).1.error_ == SP_ERROR_NONE)

/-- A concrete two-instruction program (initial `PROC`, then one
instruction that emits code and records a backward jump) used by witnesses. -/
def wProg5 : List Instr :=
  [⟨.procOp, 1, true, []⟩, ⟨.otherOp 1, 2, true, [.emitCode 3, .recordBackwardJump 2]⟩]

/-- The final compile state of `wProg5` under a successful link. -/
def wSt5 : CState := (emit 0 1000 8 wProg5).1

/-- The compiled function `wProg5` yields. -/
def wCf5 : CompiledFunction := ⟨1000, 8, buildEdges wSt5.backward_jumps_, wSt5.cip_map_⟩

/-- The single backward-jump record of `wProg5`'s compile. -/
def wJ5 : BackwardJump := wSt5.backward_jumps_.getD 0 default

/-- A concrete program whose single body instruction registers an
out-of-bounds OOL path, used by witnesses. -/
def wProg4 : List Instr :=
  [⟨.procOp, 1, true, []⟩, ⟨.otherOp 3, 1, true, [.registerOolBounds]⟩]

/-- The final compile state of `wProg4` under a successful link. -/
def wSt4 : CState := (emit 0 77 0 wProg4).1

/-- The compiled function `wProg4` yields. -/
def wCf4 : CompiledFunction := ⟨77, 0, buildEdges wSt4.backward_jumps_, wSt4.cip_map_⟩

/-! ## Base lemmas: per-step and per-phase effects -/

theorem applyStep_fields (s : CState) (st : VisitStep) :
    (applyStep s st).trace = s.trace ++ stepEvents s.op_cip_ st ∧
    (applyStep s st).op_cip_ = s.op_cip_ ∧
    (applyStep s st).throwUsed = s.throwUsed ++ stepUses st ∧
    (applyStep s st).ool_paths_ = s.ool_paths_ ++ stepOolRegs s.op_cip_ st := by
  cases st <;>
    simp [applyStep, stepEvents, stepUses, stepOolRegs, emitEv, markThrowUsed,
      emitCipMapping, reportError]

theorem visitSteps_fields (steps : List VisitStep) (s : CState) :
    (visitSteps steps s).trace = s.trace ++ visitEvents s.op_cip_ steps ∧
    (visitSteps steps s).op_cip_ = s.op_cip_ ∧
    (visitSteps steps s).throwUsed = s.throwUsed ++ visitUses steps ∧
    (visitSteps steps s).ool_paths_ = s.ool_paths_ ++ visitOolRegs s.op_cip_ steps := by
  induction steps generalizing s with
  | nil => simp [visitSteps, visitEvents, visitUses, visitOolRegs]
  | cons st rest ih =>
    have h := applyStep_fields s st
    have hr := ih (applyStep s st)
    simp only [visitSteps, visitEvents, visitUses, visitOolRegs]
    refine ⟨?_, ?_, ?_, ?_⟩
    · rw [hr.1, h.1, h.2.1, List.append_assoc]
    · rw [hr.2.1, h.2.1]
    · rw [hr.2.2.1, h.2.2.1, List.append_assoc]
    · rw [hr.2.2.2, h.2.2.2, h.2.1, List.append_assoc]

theorem stepInstr_fields (cbase cip : Nat) (i : Instr) (s : CState) :
    (stepInstr cbase cip i s).trace =
      s.trace ++ (AsmEvent.bindJump (cip - cbase) :: visitEvents cip i.steps) ∧
    (stepInstr cbase cip i s).throwUsed = s.throwUsed ++ visitUses i.steps ∧
    (stepInstr cbase cip i s).ool_paths_ = s.ool_paths_ ++ visitOolRegs cip i.steps := by
  unfold stepInstr
  have h := visitSteps_fields i.steps
    { emitEv (.bindJump (cip - cbase)) 0 s with op_cip_ := cip }
  refine ⟨?_, ?_, ?_⟩
  · rw [h.1]; simp [emitEv]
  · rw [h.2.2.1]; simp [emitEv]
  · rw [h.2.2.2]; simp [emitEv]

theorem mainLoop_completed_fields (cbase : Nat) (body : List Instr) :
    ∀ cip s, (mainLoop cbase cip body s).2 = .completed →
      (mainLoop cbase cip body s).1.trace = s.trace ++ loopEvents cbase cip body ∧
      (mainLoop cbase cip body s).1.throwUsed = s.throwUsed ++ loopUses body ∧
      (mainLoop cbase cip body s).1.ool_paths_ = s.ool_paths_ ++ loopOolRegs cip body := by
  induction body with
  | nil => intro cip s _; simp [mainLoop, loopEvents, loopUses, loopOolRegs]
  | cons i rest ih =>
    intro cip s hdone
    by_cases hb : isBoundary i = true
    · simp [mainLoop, hb, loopEvents, loopUses, loopOolRegs]
    · rw [Bool.not_eq_true] at hb
      by_cases habort : i.ok = false ∨ (stepInstr cbase cip i s).error_ ≠ 0
      · exfalso
        simp [mainLoop, hb, habort] at hdone
      · have hrec : mainLoop cbase cip (i :: rest) s
            = mainLoop cbase (cip + i.cellLen) rest (stepInstr cbase cip i s) := by
          simp [mainLoop, hb, habort]
        rw [hrec] at hdone ⊢
        have h1 := stepInstr_fields cbase cip i s
        have h2 := ih (cip + i.cellLen) (stepInstr cbase cip i s) hdone
        refine ⟨?_, ?_, ?_⟩
        · rw [h2.1, h1.1]; simp [loopEvents, hb]
        · rw [h2.2.1, h1.2.1]; simp [loopUses, hb]
        · rw [h2.2.2, h1.2.2]; simp [loopOolRegs, hb]

theorem find_entry_fp_loop_below (lastF e : FrameLayout) (rest : List FrameLayout)
    (hlast : lastF.frame_type ≠ JitFrameType.entry)
    (he : e.frame_type = JitFrameType.entry) :
    ∀ (pre : List FrameLayout), (∀ f ∈ pre, f.frame_type ≠ JitFrameType.entry) →
      ∀ fp, find_entry_fp_loop fp (pre ++ lastF :: e :: rest) = lastF.prev_fp := by
  intro pre
  induction pre with
  | nil =>
    intro _ fp
    simp [find_entry_fp_loop, hlast, he]
  | cons f pre ih =>
    intro hpre fp
    have hf : f.frame_type ≠ JitFrameType.entry := hpre f (by simp)
    simp only [List.cons_append, find_entry_fp_loop, if_neg hf]
    exact ih (fun g hg => hpre g (by simp [hg])) f.prev_fp

/-- C1, counterexample.  On a frame walk consisting of one scripted frame
(`prev_fp = 5`) below the entry frame (`prev_fp = 7`), the iterator reaches
the `Entry`-typed frame, whose `prev_fp` field is `7`, yet `find_entry_fp`
returns `5` — not the `prev_fp` of the `Entry`-typed frame. -/
theorem find_entry_fp_claim_counterexample :
    find_entry_fp [⟨JitFrameType.scripted, 5⟩, ⟨JitFrameType.entry, 7⟩] = 5 ∧
    (FrameLayout.mk JitFrameType.entry 7).frame_type = JitFrameType.entry ∧
    (FrameLayout.mk JitFrameType.entry 7).prev_fp = 7 ∧
    find_entry_fp [⟨JitFrameType.scripted, 5⟩, ⟨JitFrameType.entry, 7⟩] ≠ 7 := by
  refine ⟨rfl, rfl, rfl, ?_⟩
  decide

/-- C1, amended.  When the walk (deepest frame first) reaches a frame of
type `Entry`, `find_entry_fp` returns the `prev_fp` of the frame visited
immediately **before** the `Entry`-typed frame — the loop breaks on seeing
the `Entry` frame without reading its own `prev_fp`. -/
theorem find_entry_fp_prev_of_frame_below_entry
    (pre : List FrameLayout) (lastF e : FrameLayout) (rest : List FrameLayout)
    (hpre : ∀ f ∈ pre, f.frame_type ≠ JitFrameType.entry)
    (hlast : lastF.frame_type ≠ JitFrameType.entry)
    (he : e.frame_type = JitFrameType.entry) :
    find_entry_fp (pre ++ lastF :: e :: rest) = lastF.prev_fp :=
  find_entry_fp_loop_below lastF e rest hlast he pre hpre 0

/-- Witness for the amended C1 theorem at a concrete frame walk. -/
theorem find_entry_fp_prev_of_frame_below_entry_witness :
    find_entry_fp [⟨JitFrameType.scripted, 3⟩, ⟨JitFrameType.scripted, 5⟩,
      ⟨JitFrameType.entry, 7⟩, ⟨JitFrameType.scripted, 9⟩] = 5 :=
  find_entry_fp_prev_of_frame_below_entry [⟨JitFrameType.scripted, 3⟩]
    ⟨JitFrameType.scripted, 5⟩ ⟨JitFrameType.entry, 7⟩ [⟨JitFrameType.scripted, 9⟩]
    (by decide) (by decide) rfl

/-- C2.  When the watchdog's `HandleInterrupt` returns false (an active
preemption), `CompileFromThunk` returns the timeout error code, does not
invoke the compile driver, does not mutate the method, performs no write of
`*addrp` and no call-site patch. -/
theorem thunk_timeout_blocks_compile (w : ThunkWorld) (h : w.handleInterrupt = false) :
    CompileFromThunk w =
      { status := SP_ERROR_TIMEOUT, actions := [], methodAfter := w.acquireMethod,
        compiled := false } := by
  simp [CompileFromThunk, h]

/-- Witness for C2 at a concrete world. -/
theorem thunk_timeout_blocks_compile_witness :
    CompileFromThunk ⟨false, none, 0, 0, []⟩ =
      { status := SP_ERROR_TIMEOUT, actions := [], methodAfter := none,
        compiled := false } :=
  thunk_timeout_blocks_compile ⟨false, none, 0, 0, []⟩ rfl

/-- C7.  Two consecutive `CompileFromThunk` calls for a method that already
has a compiled function (with validation succeeding and no active
preemption) both succeed, write the same entry address, never invoke the
compile driver, and each performs exactly one patch writing that same
entry value — so the second call's patch writes the identical value. -/
theorem thunk_recompile_idempotent (w1 w2 : ThunkWorld) (m : MethodInfo)
    (fn : CompiledFunction)
    (h1i : w1.handleInterrupt = true) (h2i : w2.handleInterrupt = true)
    (h1m : w1.acquireMethod = some m)
    (hv : m.validateResult = SP_ERROR_NONE)
    (hj : m.jitFun = some fn)
    (h2m : w2.acquireMethod = (CompileFromThunk w1).methodAfter) :
    CompileFromThunk w1 =
      { status := SP_ERROR_NONE,
        actions := [.writeAddr fn.entry, .patch fn.entry],
        methodAfter := some m, compiled := false } ∧
    CompileFromThunk w2 =
      { status := SP_ERROR_NONE,
        actions := [.writeAddr fn.entry, .patch fn.entry],
        methodAfter := some m, compiled := false } := by
  have h1 : CompileFromThunk w1 =
      { status := SP_ERROR_NONE,
        actions := [.writeAddr fn.entry, .patch fn.entry],
        methodAfter := some m, compiled := false } := by
    simp [CompileFromThunk, h1i, h1m, hv, hj]
  rw [h1] at h2m
  have h2 : CompileFromThunk w2 =
      { status := SP_ERROR_NONE,
        actions := [.writeAddr fn.entry, .patch fn.entry],
        methodAfter := some m, compiled := false } := by
    simp [CompileFromThunk, h2i, h2m, hv, hj]
  exact ⟨h1, h2⟩

/-- Witness for C7 at a concrete already-compiled method. -/
theorem thunk_recompile_idempotent_witness :
    CompileFromThunk ⟨true, some ⟨4, 0, some ⟨100, 4, [], []⟩⟩, 0, 1, []⟩ =
      { status := SP_ERROR_NONE,
        actions := [.writeAddr 100, .patch 100],
        methodAfter := some ⟨4, 0, some ⟨100, 4, [], []⟩⟩, compiled := false } ∧
    CompileFromThunk ⟨true, some ⟨4, 0, some ⟨100, 4, [], []⟩⟩, 0, 1, []⟩ =
      { status := SP_ERROR_NONE,
        actions := [.writeAddr 100, .patch 100],
        methodAfter := some ⟨4, 0, some ⟨100, 4, [], []⟩⟩, compiled := false } :=
  thunk_recompile_idempotent
    ⟨true, some ⟨4, 0, some ⟨100, 4, [], []⟩⟩, 0, 1, []⟩
    ⟨true, some ⟨4, 0, some ⟨100, 4, [], []⟩⟩, 0, 1, []⟩
    ⟨4, 0, some ⟨100, 4, [], []⟩⟩ ⟨100, 4, [], []⟩
    rfl rfl rfl rfl rfl (by decide)

/-- C10.  Both out-of-line path variants (`ErrorPath` and
`OutOfBoundsErrorPath`) have an `emit` that always returns true, so the
abort-on-emit-failure branch of the OOL emission loop is never taken: the
loop's success flag is true on every input.  OOL emission can therefore fail
a compile only through the latched error field checked afterwards. -/
theorem pathEmit_snd_true (p : OolPath) (s : CState) : (pathEmit p s).2 = true := by
  cases p <;> rfl

theorem oolLoop_snd_true (idx : Nat) (ps : List OolPath) (s : CState) :
    (oolLoop idx ps s).2 = true := by
  induction ps generalizing idx s with
  | nil => rfl
  | cons p rest ih =>
    simp only [oolLoop]
    rw [pathEmit_snd_true p (emitEv (.bindOol idx) 0 s)]
    simp only [Bool.true_eq_false, if_false]
    exact ih (idx + 1) (pathEmit p (emitEv (.bindOol idx) 0 s)).1

theorem oolLoop_cons (idx : Nat) (p : OolPath) (rest : List OolPath) (s : CState) :
    oolLoop idx (p :: rest) s
      = oolLoop (idx + 1) rest (pathEmit p (emitEv (.bindOol idx) 0 s)).1 := by
  simp only [oolLoop]
  rw [pathEmit_snd_true p (emitEv (.bindOol idx) 0 s)]
  simp only [Bool.true_eq_false, if_false]

theorem ool_error_paths_never_fail_emit :
    (∀ (p : OolPath) (s : CState), (pathEmit p s).2 = true) ∧
    (∀ (idx : Nat) (ps : List OolPath) (s : CState), (oolLoop idx ps s).2 = true) :=
  ⟨pathEmit_snd_true, oolLoop_snd_true⟩

theorem mainLoop_stop_at_boundary (cbase : Nat) (b : Instr) (post : List Instr)
    (hb : isBoundary b = true) :
    ∀ (pre : List Instr), (∀ i ∈ pre, isBoundary i = false) →
      ∀ cip s, mainLoop cbase cip (pre ++ b :: post) s = mainLoop cbase cip pre s := by
  intro pre
  induction pre with
  | nil =>
    intro _ cip s
    simp [mainLoop, hb]
  | cons i rest ih =>
    intro hpre cip s
    have hi : isBoundary i = false := hpre i (by simp)
    by_cases habort : i.ok = false ∨ (stepInstr cbase cip i s).error_ ≠ 0
    · simp [mainLoop, hi, habort]
    · simp only [List.cons_append, mainLoop, hi, Bool.false_eq_true, if_false,
        if_neg habort]
      exact ih (fun j hj => hpre j (by simp [hj])) (cip + i.cellLen)
        (stepInstr cbase cip i s)

theorem visitedInstrs_stop_at_boundary (b : Instr) (post : List Instr)
    (hb : isBoundary b = true) :
    ∀ pre, (∀ i ∈ pre, isBoundary i = false) → visitedInstrs (pre ++ b :: post) = pre := by
  intro pre
  induction pre with
  | nil => intro _; simp [visitedInstrs, hb]
  | cons i rest ih =>
    intro hpre
    have hi : isBoundary i = false := hpre i (by simp)
    simp [visitedInstrs, hi, ih (fun j hj => hpre j (by simp [hj]))]

/-- C9.  The decode loop stops, before emitting anything for it, at the
first `PROC` after the function's own initial `PROC`, and at `ENDPROC`
anywhere: compiling a stream that continues past such a boundary gives
exactly the same result as compiling the stream truncated at the boundary,
and the visited instructions are exactly those before it — the compiled
output never contains a second function's body. -/
theorem compile_stops_at_function_boundary (cbase linkAddr ps : Nat) (first b : Instr)
    (pre post : List Instr)
    (_hfirst : first.op = Opcode.procOp)
    (hpre : ∀ i ∈ pre, isBoundary i = false)
    (hb : isBoundary b = true) :
    emit cbase linkAddr ps (first :: (pre ++ b :: post))
      = emit cbase linkAddr ps (first :: pre) ∧
    visitedInstrs (pre ++ b :: post) = pre := by
  constructor
  · simp only [emit, emitCore]
    rw [mainLoop_stop_at_boundary cbase b post hb pre hpre (ps + first.cellLen)
      (emitPrologue initState)]
  · exact visitedInstrs_stop_at_boundary b post hb pre hpre

/-- Witness for C9: a stream with an `ENDPROC` followed by a stray
instruction compiles identically to the stream truncated at the `ENDPROC`. -/
theorem compile_stops_at_function_boundary_witness :
    emit 0 50 0 [⟨.procOp, 1, true, []⟩, ⟨.otherOp 2, 1, true, [.emitCode 4]⟩,
        ⟨.endprocOp, 1, true, []⟩, ⟨.otherOp 9, 1, true, [.emitCode 1]⟩]
      = emit 0 50 0 [⟨.procOp, 1, true, []⟩, ⟨.otherOp 2, 1, true, [.emitCode 4]⟩] ∧
    visitedInstrs [⟨.otherOp 2, 1, true, [.emitCode 4]⟩, ⟨.endprocOp, 1, true, []⟩,
        ⟨.otherOp 9, 1, true, [.emitCode 1]⟩]
      = [⟨.otherOp 2, 1, true, [.emitCode 4]⟩] :=
  compile_stops_at_function_boundary 0 50 0 ⟨.procOp, 1, true, []⟩
    ⟨.endprocOp, 1, true, []⟩ [⟨.otherOp 2, 1, true, [.emitCode 4]⟩]
    [⟨.otherOp 9, 1, true, [.emitCode 1]⟩] rfl (by decide) rfl

theorem emit_some_shape (cbase la ps : Nat) (prog : List Instr) (st : CState)
    (cf : CompiledFunction) (h : emit cbase la ps prog = (st, some cf)) :
    cf = ⟨la, ps, buildEdges st.backward_jumps_, st.cip_map_⟩ := by
  cases prog with
  | nil => simp [emit] at h
  | cons first body =>
    simp only [emit, emitCore] at h
    split at h
    · simp at h
    · split at h
      · simp at h
      · split at h
        · simp at h
        · split at h
          · simp at h
          · injection h with h1 h2
            injection h2 with h2
            subst h1
            exact h2.symm

theorem emit_aborted_shape (cbase la ps : Nat) (first : Instr) (body : List Instr)
    (habort : (mainLoop cbase (ps + first.cellLen) body
        (emitPrologue initState)).2 = .aborted) :
    emit cbase la ps (first :: body) =
      ((mainLoop cbase (ps + first.cellLen) body (emitPrologue initState)).1, none) := by
  simp only [emit, emitCore]
  split
  · rfl
  · next heq => rw [habort] at heq; cases heq

/-- C3.  If the main decode loop aborts — some instruction's visitor
returned failure or the driver's error field became nonzero after it (the
only two abort sources, jit.cpp lines 110-111) — then `emit` returns no
compiled function, `Compile` surfaces the latched error code to its caller
through the out-parameter, and the method record is returned unchanged (its
compiled-function reference is never set). -/
theorem main_loop_abort_surfaces_error (cbase linkAddr : Nat) (first : Instr)
    (body : List Instr) (m : MethodInfo)
    (habort : (mainLoop cbase (m.pcode_offset + first.cellLen) body
        (emitPrologue initState)).2 = .aborted) :
    (emit cbase linkAddr m.pcode_offset (first :: body)).2 = none ∧
    Compile cbase linkAddr (first :: body) m =
      (none,
        (mainLoop cbase (m.pcode_offset + first.cellLen) body
          (emitPrologue initState)).1.error_,
        m) := by
  have hemit := emit_aborted_shape cbase linkAddr m.pcode_offset first body habort
  refine ⟨by rw [hemit], ?_⟩
  simp only [Compile, hemit]

/-- Witness for C3: a program whose single body instruction latches an
assembler-style error (`SP_ERROR_ARRAY_BOUNDS`), so the loop aborts, the
error is surfaced, and the method is unchanged. -/
theorem main_loop_abort_surfaces_error_witness :
    (mainLoop 0 (0 + (1 : Nat)) [⟨.otherOp 0, 1, true, [.reportErrorStep 15]⟩]
        (emitPrologue initState)).2 = .aborted ∧
    (emit 0 7 0 [⟨.procOp, 1, true, []⟩, ⟨.otherOp 0, 1, true, [.reportErrorStep 15]⟩]).2
        = none ∧
    Compile 0 7 [⟨.procOp, 1, true, []⟩, ⟨.otherOp 0, 1, true, [.reportErrorStep 15]⟩]
        ⟨0, 0, none⟩ =
      (none,
        (mainLoop 0 (0 + (1 : Nat)) [⟨.otherOp 0, 1, true, [.reportErrorStep 15]⟩]
          (emitPrologue initState)).1.error_,
        ⟨0, 0, none⟩) :=
  ⟨by decide,
    main_loop_abort_surfaces_error 0 7 ⟨.procOp, 1, true, []⟩
      [⟨.otherOp 0, 1, true, [.reportErrorStep 15]⟩] ⟨0, 0, none⟩ (by decide)⟩

/-- C5.  For every successful compile, the constructed `LoopEdge` array has
exactly one edge per backward-jump record, and the `k`-th edge carries
`offset = pc` and `disp32 = int32(timeout_offset) - int32(pc)` of the `k`-th
record. -/
theorem loop_edges_match_backward_jumps (cbase linkAddr ps : Nat) (prog : List Instr)
    (st : CState) (cf : CompiledFunction)
    (h : emit cbase linkAddr ps prog = (st, some cf)) :
    cf.edges.length = st.backward_jumps_.length ∧
    ∀ (k : Nat) (j : BackwardJump), st.backward_jumps_[k]? = some j →
      cf.edges[k]? = some ⟨j.pc, toInt32 j.timeout_offset - toInt32 j.pc⟩ := by
  have hcf := emit_some_shape cbase linkAddr ps prog st cf h
  constructor
  · rw [hcf]; simp [buildEdges]
  · intro k j hk
    rw [hcf]
    simp only [buildEdges, List.getElem?_map, hk, Option.map_some']

/-- Witness for C5: `wProg5` compiles successfully with one backward-jump
record, and its single loop edge matches that record. -/
theorem loop_edges_match_backward_jumps_witness :
    wCf5.edges.length = wSt5.backward_jumps_.length ∧
    wCf5.edges[0]? = some ⟨wJ5.pc, toInt32 wJ5.timeout_offset - toInt32 wJ5.pc⟩ :=
  ⟨(loop_edges_match_backward_jumps 0 1000 8 wProg5 wSt5 wCf5 (by decide)).1,
    (loop_edges_match_backward_jumps 0 1000 8 wProg5 wSt5 wCf5 (by decide)).2 0 wJ5
      (by decide)⟩

/-- C8.  Under the spec's error-latching discipline for visitors
(`compileLatchesB`): every `CompileFromThunk` call that returns success has
performed exactly the write of the entry address through `*addrp` followed
by the call-site patch — the entry is published before the site is rewritten
— and every failing call performs neither action, leaving the patch site
pointing at the patcher and publishing no entry address. -/
theorem entry_written_before_patch (w : ThunkWorld) (hlat : compileLatchesB w = true) :
    ((CompileFromThunk w).status = SP_ERROR_NONE →
      ∃ e, (CompileFromThunk w).actions = [ThunkAction.writeAddr e, ThunkAction.patch e]) ∧
    ((CompileFromThunk w).status ≠ SP_ERROR_NONE → (CompileFromThunk w).actions = []) := by
  by_cases hi : w.handleInterrupt = false
  · have hct : CompileFromThunk w =
        { status := SP_ERROR_TIMEOUT, actions := [], methodAfter := w.acquireMethod,
          compiled := false } := by simp [CompileFromThunk, hi]
    rw [hct]
    exact ⟨fun hst => by simp [SP_ERROR_TIMEOUT, SP_ERROR_NONE] at hst, fun _ => rfl⟩
  · cases hm : w.acquireMethod with
    | none =>
      have hct : CompileFromThunk w =
          { status := SP_ERROR_INVALID_ADDRESS, actions := [], methodAfter := none,
            compiled := false } := by simp [CompileFromThunk, hi, hm]
      rw [hct]
      exact ⟨fun hst => by simp [SP_ERROR_INVALID_ADDRESS, SP_ERROR_NONE] at hst,
        fun _ => rfl⟩
    | some m =>
      by_cases hv : m.validateResult = SP_ERROR_NONE
      · cases hj : m.jitFun with
        | some fn =>
          have hct : CompileFromThunk w =
              { status := SP_ERROR_NONE,
                actions := [.writeAddr fn.entry, .patch fn.entry],
                methodAfter := some m, compiled := false } := by
            simp [CompileFromThunk, hi, hm, hv, hj]
          rw [hct]
          exact ⟨fun _ => ⟨fn.entry, rfl⟩, fun hst => absurd rfl hst⟩
        | none =>
          cases hemit : (emit w.cbase w.linkAddr m.pcode_offset w.prog).2 with
          | none =>
            have herr : (emit w.cbase w.linkAddr m.pcode_offset w.prog).1.error_
                ≠ SP_ERROR_NONE := by
              simp only [compileLatchesB, hm, hemit, Bool.not_eq_true'] at hlat
              simpa using hlat
            have hct : CompileFromThunk w =
                { status := (emit w.cbase w.linkAddr m.pcode_offset w.prog).1.error_,
                  actions := [], methodAfter := some m, compiled := true } := by
              simp [CompileFromThunk, hi, hm, hv, hj, Compile, hemit]
            rw [hct]
            exact ⟨fun hst => absurd hst herr, fun _ => rfl⟩
          | some fn =>
            have hct : CompileFromThunk w =
                { status := SP_ERROR_NONE,
                  actions := [.writeAddr fn.entry, .patch fn.entry],
                  methodAfter := some { m with jitFun := some fn }, compiled := true } := by
              simp [CompileFromThunk, hi, hm, hv, hj, Compile, hemit]
            rw [hct]
            exact ⟨fun _ => ⟨fn.entry, rfl⟩, fun hst => absurd rfl hst⟩
      · have hct : CompileFromThunk w =
            { status := m.validateResult, actions := [], methodAfter := some m,
              compiled := false } := by simp [CompileFromThunk, hi, hm, hv]
        rw [hct]
        exact ⟨fun hst => absurd hst hv, fun _ => rfl⟩

/-- Witness for C8: a successful call (already-compiled method) whose only
actions are the entry write followed by the identical patch. -/
theorem entry_written_before_patch_witness :
    ∃ e, (CompileFromThunk ⟨true, some ⟨4, 0, some ⟨100, 4, [], []⟩⟩, 0, 1,
      [⟨.procOp, 1, true, []⟩]⟩).actions = [ThunkAction.writeAddr e, ThunkAction.patch e] :=
  (entry_written_before_patch
    ⟨true, some ⟨4, 0, some ⟨100, 4, [], []⟩⟩, 0, 1, [⟨.procOp, 1, true, []⟩]⟩
    (by decide)).1 (by decide)

theorem stepEvents_tag (c : Nat) (st : VisitStep) (e : AsmEvent)
    (he : e ∈ stepEvents c st) : tagOf e = some c := by
  cases st <;>
    simp only [stepEvents, List.mem_singleton, List.mem_cons,
      List.not_mem_nil, or_false] at he
  case emitCode len => subst he; rfl
  case inlineErrorCall err => rcases he with rfl | rfl <;> rfl
  case recordBackwardJump len => subst he; rfl

theorem visitEvents_tag (c : Nat) :
    ∀ (steps : List VisitStep) (e : AsmEvent), e ∈ visitEvents c steps →
      tagOf e = some c := by
  intro steps
  induction steps with
  | nil => intro e he; simp [visitEvents] at he
  | cons st rest ih =>
    intro e he
    rw [visitEvents, List.mem_append] at he
    rcases he with he | he
    · exact stepEvents_tag c st e he
    · exact ih e he

theorem visitEvents_no_throwPath (c : Nat) (steps : List VisitStep) (err : Nat) :
    AsmEvent.throwPath err ∉ visitEvents c steps := by
  intro hmem
  have := visitEvents_tag c steps (AsmEvent.throwPath err) hmem
  simp [tagOf] at this

theorem loopEvents_no_throwPath (cbase : Nat) :
    ∀ (body : List Instr) (cip err : Nat),
      AsmEvent.throwPath err ∉ loopEvents cbase cip body := by
  intro body
  induction body with
  | nil => intro cip err h; simp [loopEvents] at h
  | cons i rest ih =>
    intro cip err h
    by_cases hb : isBoundary i = true
    · simp [loopEvents, hb] at h
    · rw [Bool.not_eq_true] at hb
      simp only [loopEvents, hb, Bool.false_eq_true, if_false, List.mem_cons,
        List.mem_append] at h
      rcases h with h | h | h
      · cases h
      · exact visitEvents_no_throwPath cip i.steps err h
      · exact ih (cip + i.cellLen) err h

theorem pathsUses_append (a b : List OolPath) :
    pathsUses (a ++ b) = pathsUses a ++ pathsUses b := by
  induction a with
  | nil => simp [pathsUses]
  | cons p rest ih => simp [pathsUses, ih]

theorem pathEmit_fields (p : OolPath) (s : CState) :
    ∃ t, (pathEmit p s).1.trace = s.trace ++ t ∧
      (∀ err, AsmEvent.throwPath err ∉ t) ∧
      (pathEmit p s).1.throwUsed = s.throwUsed ++ pathUses p := by
  cases p with
  | errorPath err cip =>
    by_cases he : err = 0
    · refine ⟨[.alignStack cip, .callReportError cip], ?_, ?_, ?_⟩
      · simp [pathEmit, emitErrorPath, he, emitEv, emitCipMapping]
      · intro e; simp
      · simp [pathEmit, emitErrorPath, he, emitEv, emitCipMapping, pathUses,
          markThrowUsed]
    · refine ⟨[.alignStack cip, .callThrow cip err], ?_, ?_, ?_⟩
      · simp [pathEmit, emitErrorPath, he, emitEv, emitCipMapping, markThrowUsed]
      · intro e; simp
      · simp [pathEmit, emitErrorPath, he, emitEv, emitCipMapping, pathUses,
          markThrowUsed]
  | boundsPath cip =>
    refine ⟨[.alignStack cip, .callThrow cip SP_ERROR_ARRAY_BOUNDS], ?_, ?_, ?_⟩
    · simp [pathEmit, emitOutOfBoundsErrorPath, emitEv, emitCipMapping, markThrowUsed]
    · intro e; simp
    · simp [pathEmit, emitOutOfBoundsErrorPath, emitEv, emitCipMapping, pathUses,
        markThrowUsed]

theorem oolLoop_fields :
    ∀ (ps : List OolPath) (idx : Nat) (s : CState),
      ∃ t, (oolLoop idx ps s).1.trace = s.trace ++ t ∧
        (∀ err, AsmEvent.throwPath err ∉ t) ∧
        (oolLoop idx ps s).1.throwUsed = s.throwUsed ++ pathsUses ps := by
  intro ps
  induction ps with
  | nil =>
    intro idx s
    exact ⟨[], by simp [oolLoop], by intro err; simp, by simp [oolLoop, pathsUses]⟩
  | cons p rest ih =>
    intro idx s
    rw [oolLoop_cons]
    obtain ⟨tp, htp, htpn, htpu⟩ := pathEmit_fields p (emitEv (.bindOol idx) 0 s)
    obtain ⟨tr, htr, htrn, htru⟩ := ih (idx + 1) (pathEmit p (emitEv (.bindOol idx) 0 s)).1
    refine ⟨.bindOol idx :: (tp ++ tr), ?_, ?_, ?_⟩
    · rw [htr, htp]
      simp [emitEv]
    · intro err hmem
      simp only [List.mem_cons, List.mem_append] at hmem
      rcases hmem with h | h | h
      · cases h
      · exact htpn err h
      · exact htrn err h
    · rw [htru, htpu]
      simp [emitEv, pathsUses]

theorem thunkLoop_fields :
    ∀ (js : List BackwardJump) (s : CState),
      ∃ t, (thunkLoop js s).2.trace = s.trace ++ t ∧
        (∀ err, AsmEvent.throwPath err ∉ t) ∧
        (thunkLoop js s).2.throwUsed = s.throwUsed := by
  intro js
  induction js with
  | nil => intro s; exact ⟨[], by simp [thunkLoop], by intro err; simp, by simp [thunkLoop]⟩
  | cons j rest ih =>
    intro s
    obtain ⟨tr, htr, htrn, htru⟩ :=
      ih (emitCipMapping j.cip (emitEv .callThrowTimeout CALL_LEN s))
    refine ⟨.callThrowTimeout :: tr, ?_, ?_, ?_⟩
    · show (thunkLoop rest (emitCipMapping j.cip (emitEv .callThrowTimeout CALL_LEN s))).2.trace
        = _
      rw [htr]
      simp [emitEv, emitCipMapping]
    · intro err hmem
      simp only [List.mem_cons] at hmem
      rcases hmem with h | h
      · cases h
      · exact htrn err h
    · show (thunkLoop rest (emitCipMapping j.cip (emitEv .callThrowTimeout CALL_LEN s))).2.throwUsed
        = _
      rw [htru]
      simp [emitEv, emitCipMapping]

theorem emitThrowPathIfNeeded_fields (err : Nat) (s : CState) :
    (emitThrowPathIfNeeded err s).trace
      = s.trace ++ (if s.throwUsed.contains err then
          [AsmEvent.bindThrow err, AsmEvent.throwPath err] else []) ∧
    (emitThrowPathIfNeeded err s).throwUsed = s.throwUsed := by
  by_cases h : err ∈ s.throwUsed <;>
    simp [emitThrowPathIfNeeded, emitThrowPath, emitEv, h]

theorem foldThrow_fields :
    ∀ (l : List Nat) (s : CState),
      (l.foldl (fun s e => emitThrowPathIfNeeded e s) s).trace
        = s.trace ++ throwEvents s.throwUsed l ∧
      (l.foldl (fun s e => emitThrowPathIfNeeded e s) s).throwUsed = s.throwUsed := by
  intro l
  induction l with
  | nil => intro s; simp [throwEvents]
  | cons e rest ih =>
    intro s
    have h1 := emitThrowPathIfNeeded_fields e s
    have h2 := ih (emitThrowPathIfNeeded e s)
    constructor
    · rw [List.foldl_cons, h2.1, h1.1, h1.2]
      simp [throwEvents, List.append_assoc]
    · rw [List.foldl_cons, h2.2, h1.2]

theorem throwPath_mem_throwEvents (used : List Nat) (err : Nat) :
    ∀ l : List Nat,
      (AsmEvent.throwPath err ∈ throwEvents used l
        ↔ err ∈ l ∧ used.contains err = true) := by
  intro l
  induction l with
  | nil => simp [throwEvents]
  | cons e rest ih =>
    simp only [throwEvents, List.mem_append, ih, List.mem_cons]
    by_cases he : used.contains e = true
    · rw [if_pos he]
      constructor
      · rintro (hm | ⟨hr, hc⟩)
        · simp only [List.mem_cons, List.not_mem_nil, or_false] at hm
          rcases hm with hm | hm
          · cases hm
          · injection hm with hm
            exact ⟨Or.inl hm, hm ▸ he⟩
        · exact ⟨Or.inr hr, hc⟩
      · rintro ⟨(rfl | hr), hc⟩
        · exact Or.inl (by simp)
        · exact Or.inr ⟨hr, hc⟩
    · rw [if_neg he]
      constructor
      · rintro (hm | ⟨hr, hc⟩)
        · simp at hm
        · exact ⟨Or.inr hr, hc⟩
      · rintro ⟨(rfl | hr), hc⟩
        · exact absurd hc he
        · exact Or.inr ⟨hr, hc⟩

theorem emitErrorHandlers_fields (s : CState) :
    (emitErrorHandlers s).trace = s.trace ++ [AsmEvent.errorHandlers] ∧
    (emitErrorHandlers s).throwUsed = s.throwUsed := by
  simp [emitErrorHandlers, emitEv]

theorem emit_success_fields (cbase la ps : Nat) (first : Instr) (body : List Instr)
    (st : CState) (cf : CompiledFunction)
    (h : emit cbase la ps (first :: body) = (st, some cf)) :
    ∃ t2 t3,
      st.trace =
        ((((AsmEvent.prologue :: loopEvents cbase (ps + first.cellLen) body) ++ t2) ++ t3)
          ++ throwEvents
              (loopUses body ++ pathsUses (loopOolRegs (ps + first.cellLen) body))
              errorList) ++ [AsmEvent.errorHandlers] ∧
      (∀ err, AsmEvent.throwPath err ∉ t2) ∧
      (∀ err, AsmEvent.throwPath err ∉ t3) ∧
      st.throwUsed = loopUses body ++ pathsUses (loopOolRegs (ps + first.cellLen) body) := by
  simp only [emit, emitCore] at h
  split at h
  · simp at h
  · next heq =>
    have hm := mainLoop_completed_fields cbase body (ps + first.cellLen)
      (emitPrologue initState) heq
    have hm1 : (mainLoop cbase (ps + first.cellLen) body (emitPrologue initState)).1.trace
        = AsmEvent.prologue :: loopEvents cbase (ps + first.cellLen) body := by
      rw [hm.1]; simp [emitPrologue, emitEv, initState]
    have hm2 : (mainLoop cbase (ps + first.cellLen) body (emitPrologue initState)).1.throwUsed
        = loopUses body := by
      rw [hm.2.1]; simp [emitPrologue, emitEv, initState]
    have hm3 : (mainLoop cbase (ps + first.cellLen) body (emitPrologue initState)).1.ool_paths_
        = loopOolRegs (ps + first.cellLen) body := by
      rw [hm.2.2]; simp [emitPrologue, emitEv, initState]
    split at h
    · next heq2 => rw [oolLoop_snd_true] at heq2; exact Bool.noConfusion heq2
    · split at h
      · simp at h
      · split at h
        · simp at h
        · injection h with h1 h2
          obtain ⟨t2, ho1, hon, hou⟩ := oolLoop_fields
            ((mainLoop cbase (ps + first.cellLen) body (emitPrologue initState)).1.ool_paths_)
            0 ((mainLoop cbase (ps + first.cellLen) body (emitPrologue initState)).1)
          obtain ⟨t3, hth1, hthn, hthu⟩ := thunkLoop_fields
            ((oolLoop 0
              (mainLoop cbase (ps + first.cellLen) body (emitPrologue initState)).1.ool_paths_
              (mainLoop cbase (ps + first.cellLen) body (emitPrologue initState)).1).1.backward_jumps_)
            ((oolLoop 0
              (mainLoop cbase (ps + first.cellLen) body (emitPrologue initState)).1.ool_paths_
              (mainLoop cbase (ps + first.cellLen) body (emitPrologue initState)).1).1)
          refine ⟨t2, t3, ?_, hon, hthn, ?_⟩
          · rw [← h1]
            rw [(emitErrorHandlers_fields _).1, (foldThrow_fields errorList _).1]
            dsimp only
            rw [hth1, hthu, ho1, hou, hm1, hm2, hm3]
          · rw [← h1]
            rw [(emitErrorHandlers_fields _).2, (foldThrow_fields errorList _).2]
            dsimp only
            rw [hthu, hou, hm2, hm3]

theorem stepRefs_iff (err : Nat) (herr : err ≠ 0) (c : Nat) (st : VisitStep) :
    (err ∈ stepUses st ∨ err ∈ pathsUses (stepOolRegs c st))
      ↔ stepRefB err st = true := by
  cases st with
  | emitCode len => simp [stepUses, stepOolRegs, pathsUses, stepRefB]
  | inlineErrorCall e =>
    simp only [stepUses, stepOolRegs, pathsUses, stepRefB, List.mem_singleton,
      List.not_mem_nil, or_false, beq_iff_eq]
    exact eq_comm
  | recordBackwardJump len => simp [stepUses, stepOolRegs, pathsUses, stepRefB]
  | registerOolError e =>
    by_cases he : e = 0
    · subst he
      have herr' : (0 : Nat) ≠ err := fun h => herr h.symm
      simp [stepUses, stepOolRegs, pathsUses, pathUses, stepRefB, herr']
    · simp only [stepUses, stepOolRegs, pathsUses, pathUses, stepRefB,
        List.not_mem_nil, if_neg he, List.append_nil, List.mem_singleton, false_or,
        beq_iff_eq]
      exact eq_comm
  | registerOolBounds =>
    simp only [stepUses, stepOolRegs, pathsUses, pathUses, stepRefB,
      List.not_mem_nil, List.append_nil, List.mem_singleton, false_or, beq_iff_eq]
  | addCipEntry => simp [stepUses, stepOolRegs, pathsUses, stepRefB]
  | reportErrorStep e => simp [stepUses, stepOolRegs, pathsUses, stepRefB]

theorem instr_refs (err : Nat) (herr : err ≠ 0) (c : Nat) (i : Instr) :
    (err ∈ visitUses i.steps ∨ err ∈ pathsUses (visitOolRegs c i.steps))
      ↔ referencesThrow err i = true := by
  obtain ⟨op, len, ok, steps⟩ := i
  simp only [referencesThrow]
  induction steps with
  | nil => simp [visitUses, visitOolRegs, pathsUses]
  | cons st rest ih =>
    simp only [visitUses, visitOolRegs, pathsUses_append, List.mem_append,
      List.any_cons, Bool.or_eq_true]
    have hstep := stepRefs_iff err herr c st
    constructor
    · rintro ((h | h) | (h | h))
      · exact Or.inl (hstep.mp (Or.inl h))
      · exact Or.inr (ih.mp (Or.inl h))
      · exact Or.inl (hstep.mp (Or.inr h))
      · exact Or.inr (ih.mp (Or.inr h))
    · rintro (h | h)
      · rcases hstep.mpr h with h' | h'
        · exact Or.inl (Or.inl h')
        · exact Or.inr (Or.inl h')
      · rcases ih.mpr h with h' | h'
        · exact Or.inl (Or.inr h')
        · exact Or.inr (Or.inr h')

theorem loop_refs (err : Nat) (herr : err ≠ 0) :
    ∀ (body : List Instr) (cip : Nat),
      (err ∈ loopUses body ∨ err ∈ pathsUses (loopOolRegs cip body))
        ↔ ∃ i, i ∈ visitedInstrs body ∧ referencesThrow err i = true := by
  intro body
  induction body with
  | nil => intro cip; simp [loopUses, loopOolRegs, pathsUses, visitedInstrs]
  | cons i rest ih =>
    intro cip
    by_cases hb : isBoundary i = true
    · simp [loopUses, loopOolRegs, pathsUses, visitedInstrs, hb]
    · rw [Bool.not_eq_true] at hb
      simp only [loopUses, loopOolRegs, visitedInstrs, hb, Bool.false_eq_true,
        if_false, pathsUses_append, List.mem_append, List.mem_cons]
      have hinst := instr_refs err herr cip i
      have hrest := ih (cip + i.cellLen)
      constructor
      · rintro ((h | h) | (h | h))
        · exact ⟨i, Or.inl rfl, hinst.mp (Or.inl h)⟩
        · obtain ⟨j, hj, hrj⟩ := hrest.mp (Or.inl h); exact ⟨j, Or.inr hj, hrj⟩
        · exact ⟨i, Or.inl rfl, hinst.mp (Or.inr h)⟩
        · obtain ⟨j, hj, hrj⟩ := hrest.mp (Or.inr h); exact ⟨j, Or.inr hj, hrj⟩
      · rintro ⟨j, (rfl | hj), hrj⟩
        · rcases hinst.mpr hrj with h | h
          · exact Or.inl (Or.inl h)
          · exact Or.inr (Or.inl h)
        · rcases hrest.mpr ⟨j, hj, hrj⟩ with h | h
          · exact Or.inl (Or.inr h)
          · exact Or.inr (Or.inr h)

/-- C4.  For every successful compile and every error code in the fixed list
(divide-by-zero, stack-low, stack-min, array-bounds, memory-access,
heap-low, heap-min, integer-overflow, invalid-native), the shared throw path
for that code is present in the final code iff the code's label was
referenced by at least one emission site of a visited instruction (an
in-line call to it, or the error-path / out-of-bounds OOL stub the
instruction registered, whose body calls it). -/
theorem throw_path_emitted_iff_referenced (cbase linkAddr ps : Nat) (first : Instr)
    (body : List Instr) (st : CState) (cf : CompiledFunction)
    (h : emit cbase linkAddr ps (first :: body) = (st, some cf))
    (err : Nat) (herr : err ∈ errorList) :
    AsmEvent.throwPath err ∈ st.trace
      ↔ ∃ i, i ∈ visitedInstrs body ∧ referencesThrow err i = true := by
  obtain ⟨t2, t3, htr, hn2, hn3, _⟩ :=
    emit_success_fields cbase linkAddr ps first body st cf h
  have herr0 : err ≠ 0 := by
    have hall : ∀ e ∈ errorList, e ≠ 0 := by decide
    exact hall err herr
  have hcm : ∀ (l : List Nat) (a : Nat), l.contains a = true ↔ a ∈ l := by
    intro l a; simp
  rw [htr]
  constructor
  · intro hmem
    rcases List.mem_append.mp hmem with hmem | hEH
    · rcases List.mem_append.mp hmem with hmem | hTE
      · rcases List.mem_append.mp hmem with hmem | h3
        · rcases List.mem_append.mp hmem with hmem | h2
          · rcases List.mem_cons.mp hmem with hp | hL
            · cases hp
            · exact absurd hL (loopEvents_no_throwPath cbase body (ps + first.cellLen) err)
          · exact absurd h2 (hn2 err)
        · exact absurd h3 (hn3 err)
      · have := (throwPath_mem_throwEvents _ err errorList).mp hTE
        exact (loop_refs err herr0 body (ps + first.cellLen)).mp
          (List.mem_append.mp ((hcm _ err).mp this.2))
    · simp at hEH
  · intro href
    have hS : err ∈ loopUses body ++ pathsUses (loopOolRegs (ps + first.cellLen) body) :=
      List.mem_append.mpr ((loop_refs err herr0 body (ps + first.cellLen)).mpr href)
    have hTE : AsmEvent.throwPath err ∈
        throwEvents (loopUses body ++ pathsUses (loopOolRegs (ps + first.cellLen) body))
          errorList :=
      (throwPath_mem_throwEvents _ err errorList).mpr ⟨herr, (hcm _ err).mpr hS⟩
    exact List.mem_append.mpr (Or.inl (List.mem_append.mpr (Or.inr hTE)))

/-- Witness for C4 at a concrete compile: the single visited instruction of
`wProg4` registers a bounds path, so the array-bounds throw path is present
in the final code. -/
theorem throw_path_emitted_iff_referenced_witness :
    AsmEvent.throwPath 15 ∈ wSt4.trace
      ↔ ∃ i, i ∈ visitedInstrs [⟨.otherOp 3, 1, true, [.registerOolBounds]⟩] ∧
          referencesThrow 15 i = true :=
  throw_path_emitted_iff_referenced 0 77 0 ⟨.procOp, 1, true, []⟩
    [⟨.otherOp 3, 1, true, [.registerOolBounds]⟩] wSt4 wCf4 (by decide) 15 (by decide)

theorem visitedCips_lower :
    ∀ (body : List Instr) (cip c : Nat), c ∈ visitedCips cip body → cip ≤ c := by
  intro body
  induction body with
  | nil => intro cip c hc; simp [visitedCips] at hc
  | cons i rest ih =>
    intro cip c hc
    by_cases hb : isBoundary i = true
    · simp [visitedCips, hb] at hc
    · rw [Bool.not_eq_true] at hb
      simp only [visitedCips, hb, Bool.false_eq_true, if_false, List.mem_cons] at hc
      rcases hc with rfl | hc'
      · exact Nat.le_refl c
      · have := ih (cip + i.cellLen) c hc'
        omega

theorem loopEvents_decomp (cbase : Nat) (c : Nat) :
    ∀ (body : List Instr) (cip : Nat),
      (∀ i ∈ body, 1 ≤ i.cellLen) → c ∈ visitedCips cip body →
      ∃ u v, loopEvents cbase cip body = u ++ AsmEvent.bindJump (c - cbase) :: v ∧
        ∀ e ∈ u, ∀ c'', tagOf e = some c'' → c'' < c := by
  intro body
  induction body with
  | nil => intro cip _ hc; simp [visitedCips] at hc
  | cons i rest ih =>
    intro cip hlen hc
    by_cases hb : isBoundary i = true
    · simp [visitedCips, hb] at hc
    · rw [Bool.not_eq_true] at hb
      simp only [visitedCips, hb, Bool.false_eq_true, if_false, List.mem_cons] at hc
      rcases hc with rfl | hc'
      · refine ⟨[], visitEvents c i.steps ++ loopEvents cbase (c + i.cellLen) rest, ?_, ?_⟩
        · simp [loopEvents, hb]
        · intro e he; simp at he
      · obtain ⟨u, v, hEq, hTags⟩ :=
          ih (cip + i.cellLen) (fun j hj => hlen j (List.mem_cons_of_mem i hj)) hc'
        have hcip_lt : cip < c := by
          have h1 := visitedCips_lower rest (cip + i.cellLen) c hc'
          have h2 : 1 ≤ i.cellLen := hlen i (List.mem_cons_self i rest)
          omega
        refine ⟨AsmEvent.bindJump (cip - cbase) :: (visitEvents cip i.steps ++ u), v,
          ?_, ?_⟩
        · simp only [loopEvents, hb, Bool.false_eq_true, if_false, hEq]
          simp [List.append_assoc]
        · intro e he c'' htag
          rcases List.mem_cons.mp he with rfl | he'
          · simp [tagOf] at htag
          · rcases List.mem_append.mp he' with he2 | he2
            · have hv := visitEvents_tag cip i.steps e he2
              rw [hv] at htag
              injection htag with htag
              omega
            · exact hTags e he2 c'' htag

/-- C6.  For every cip visited by the reader during a successful compile,
the jump-map label at index `cip - code-segment-base` is bound before that
instruction's visitor emits any code: the final trace splits at the
instruction's bind event, and everything before the split carries the tag of
no instruction at or after that cip (hence also before any following opcode
emits). -/
theorem jump_label_bound_before_visit (cbase linkAddr ps : Nat) (first : Instr)
    (body : List Instr) (st : CState) (cf : CompiledFunction)
    (hlen : ∀ i ∈ body, 1 ≤ i.cellLen)
    (h : emit cbase linkAddr ps (first :: body) = (st, some cf))
    (c : Nat) (hc : c ∈ visitedCips (ps + first.cellLen) body) :
    ∃ u v, st.trace = u ++ AsmEvent.bindJump (c - cbase) :: v ∧
      ∀ e ∈ u, ∀ c', c' ∈ visitedCips (ps + first.cellLen) body → c ≤ c' →
        tagOf e ≠ some c' := by
  obtain ⟨t2, t3, htr, _, _, _⟩ :=
    emit_success_fields cbase linkAddr ps first body st cf h
  obtain ⟨u, v, hEq, hTags⟩ := loopEvents_decomp cbase c body (ps + first.cellLen) hlen hc
  refine ⟨AsmEvent.prologue :: u,
    v ++ t2 ++ t3
      ++ throwEvents (loopUses body ++ pathsUses (loopOolRegs (ps + first.cellLen) body))
          errorList
      ++ [AsmEvent.errorHandlers], ?_, ?_⟩
  · rw [htr, hEq]
    simp [List.append_assoc]
  · intro e he c' hc' hcc htag
    rcases List.mem_cons.mp he with rfl | he'
    · simp [tagOf] at htag
    · have hlt := hTags e he' c' htag
      omega

/-- Witness for C6 at a concrete compile: the one visited cip of `wProg4`
has its jump-map label bound before its visitor's emissions. -/
theorem jump_label_bound_before_visit_witness :
    ∃ u v, wSt4.trace = u ++ AsmEvent.bindJump (1 - 0) :: v ∧
      ∀ e ∈ u, ∀ c',
        c' ∈ visitedCips (0 + 1) [⟨.otherOp 3, 1, true, [.registerOolBounds]⟩] →
        1 ≤ c' → tagOf e ≠ some c' :=
  jump_label_bound_before_visit 0 77 0 ⟨.procOp, 1, true, []⟩
    [⟨.otherOp 3, 1, true, [.registerOolBounds]⟩] wSt4 wCf4 (by decide) (by decide)
    1 (by decide)

end SpJit
